import Mathlib

/-!
Shallow embedding of the Arweave client core found in `src/arweave_rs`
(`crypto.rs`, `transaction.rs`, `lib.rs`).

Bytes are modelled as `Nat` (with `< 256` bounds where a claim needs them)
and byte buffers as `List Nat`.  The SHA-256 / SHA-384 primitives, the
RSA-PSS signing primitive, and the JSON-Web-Key / PKCS#8 parsers are
external libraries (`ring`, `jsonwebkey`, `base64`); the repository code
only composes them, so they enter the embedding as function parameters.
The composition logic itself (tag strings, fold order, buffer writes,
error/panic paths) is translated line by line from the source.
-/

namespace ArweaveRs

/-- Bytes of a Rust string literal / `format!` output (`str.as_bytes()`). -/
def strBytes (s : String) : List Nat :=
  s.data.map Char.toNat

/-- `format!("list{}", n).as_bytes()` from `crypto.rs` `deep_hash_list` /
`deep_hash_tags`. -/
def listTag (n : Nat) : List Nat :=
  strBytes ("list" ++ toString n)

/-- `format!("blob{}", n).as_bytes()` from `crypto.rs` `deep_hash_list`. -/
def blobTag (n : Nat) : List Nat :=
  strBytes ("blob" ++ toString n)

/-- `let result = [(); 96].map(|_| iter.next().unwrap())`: pull exactly `n`
elements off the front of a list; `none` models the `unwrap` panic when the
iterator is exhausted early. -/
def takeExact : Nat → List Nat → Option (List Nat)
  | 0, _ => some []
  | _ + 1, [] => none
  | n + 1, x :: xs => (takeExact n xs).map (fun r => x :: r)

/-- `crypto.rs` `concat_u8_48`: chains the two 48-byte arrays and fills a
96-cell array from the iterator.  In Rust the `[u8; 48]` types force both
inputs to length 48; the embedding keeps the lengths as hypotheses. -/
def concat_u8_48 (left right : List Nat) : Option (List Nat) :=
  takeExact 96 (left ++ right)

/-- `crypto.rs` `hash_all_SHA256`: map each message through SHA-256, flatten
the digests into one buffer, hash that buffer.  `H256` stands for the
external `ring` SHA-256. -/
def hash_all_SHA256 (H256 : List Nat → List Nat) (messages : List (List Nat)) : List Nat :=
  H256 (messages.map H256).flatten

/-- `crypto.rs` `hash_all_SHA384`: same shape at the 48-byte width. -/
def hash_all_SHA384 (H384 : List Nat → List Nat) (messages : List (List Nat)) : List Nat :=
  H384 (messages.map H384).flatten

/-- The `for blob in data.iter()` loop body of `crypto.rs` `deep_hash_list`:
`hash = SHA384(concat_u8_48(hash, hash_all_SHA384([blob_tag, blob])))`. -/
def deepHashFold (H384 : List Nat → List Nat) :
    List (List Nat) → List Nat → Option (List Nat)
  | [], h => some h
  | blob :: rest, h =>
    (concat_u8_48 h (hash_all_SHA384 H384 [blobTag blob.length, blob])).bind
      (fun c => deepHashFold H384 rest (H384 c))

/-- `crypto.rs` `deep_hash_list`: seed the accumulator with the prior hash if
given, else with `SHA384("list{data_len}")`, then run the blob fold. -/
def deep_hash_list (H384 : List Nat → List Nat) (data_len : Nat)
    (data : List (List Nat)) (hash : Option (List Nat)) : Option (List Nat) :=
  deepHashFold H384 data
    (match hash with
     | some h => h
     | none => H384 (listTag data_len))

/-- A tag, `transaction.rs` `Tag { name: Base64, value: Base64 }`, with the
wrapped byte vectors inlined. -/
structure Tag where
  name : List Nat
  value : List Nat
deriving DecidableEq, Repr

/-- `transaction.rs` `Vec<Tag>::to_slices`: each tag becomes the two-element
slice list `[name, value]`. -/
def to_slices (tags : List Tag) : List (List (List Nat)) :=
  tags.map (fun t => [t.name, t.value])

/-- The `for tag_slice in tags.to_slices()` loop of `crypto.rs`
`deep_hash_tags`. -/
def tagsFold (H384 : List Nat → List Nat) :
    List (List (List Nat)) → List Nat → Option (List Nat)
  | [], h => some h
  | ts :: rest, h =>
    (deep_hash_list H384 ts.length ts none).bind (fun th =>
      (concat_u8_48 h th).bind (fun c => tagsFold H384 rest (H384 c)))

/-- `crypto.rs` `deep_hash_tags`: seed with `SHA384("list{tags.len()}")`,
then fold each tag's slice pair through `deep_hash_list`. -/
def deep_hash_tags (H384 : List Nat → List Nat) (tags : List Tag) : Option (List Nat) :=
  tagsFold H384 (to_slices tags) (H384 (listTag tags.length))

/-- `transaction.rs` `Transaction` (the `Base64` wrappers inlined as byte
lists; the `chunks`/`proofs` merkle fields of later snapshots are not read by
any claimed operation). -/
structure Transaction where
  format : Nat
  id : List Nat
  last_tx : List Nat
  owner : List Nat
  tags : List Tag
  target : List Nat
  quantity : Nat
  data_root : List Nat
  data : List Nat
  data_size : Nat
  reward : Nat
  signature : List Nat
deriving DecidableEq, Repr

/-- `lib.rs` `sign_transaction`: deep-hash the transaction, sign the digest,
hash the signature with SHA-256, and overwrite the `signature` and `id`
fields.  `deepHash`, `sg` and `H256` stand for the crypto provider's
`deep_hash`, `sign` and `hash_SHA256`; their only failure modes are external
library failures, so they are total here, and no field of the input is
inspected before re-signing. -/
def sign_transaction (deepHash : Transaction → List Nat)
    (sg : List Nat → List Nat) (H256 : List Nat → List Nat)
    (t : Transaction) : Transaction :=
  let dh := deepHash t
  let s := sg dh
  let i := H256 s
  { t with signature := s, id := i }

/-- Rust write of signature bytes into a pre-sized `&mut [u8]` buffer: slice
writes can never change the buffer's length. -/
def writeBuf (content buf : List Nat) : List Nat :=
  buf.zipWith (fun _ c => c) content ++ buf.drop content.length

/-- `crypto.rs` `Provider::sign`: allocate `vec![0; public_modulus_len()]`
and let `ring`'s RSA-PSS signing fill it in place.  `rsaSig msg` stands for
the signature bytes the external primitive produces. -/
def sign (modulusLen : Nat) (rsaSig : List Nat → List Nat) (message : List Nat) : List Nat :=
  writeBuf (rsaSig message) (List.replicate modulusLen 0)

/-- Outcome of `Provider::from_keypair_path`: a constructed provider, an
error returned through `?`, or a panic from `.unwrap()`. -/
inductive KeyLoad (K : Type) where
  | provider (keypair : K)
  | errReturn
  | panicked
deriving DecidableEq, Repr

/-- `crypto.rs` `Provider::from_keypair_path`: read the file (I/O errors
propagate via `?`), parse the JWK with `jwk_str.parse().unwrap()` (a parse
failure panics), convert to DER, and build the keypair with
`RsaKeyPair::from_pkcs8(..)?` (a rejected key returns an error).
`readFile`, `jwkParse` and `fromPkcs8` stand for the external tokio /
`jsonwebkey` / `ring` calls. -/
def from_keypair_path {J K : Type} (readFile : Option String)
    (jwkParse : String → Option J) (toDer : J → List Nat)
    (fromPkcs8 : List Nat → Option K) : KeyLoad K :=
  match readFile with
  | none => KeyLoad.errReturn
  | some jwk_str =>
    match jwkParse jwk_str with
    | none => KeyLoad.panicked
    | some jwk_parsed =>
      match fromPkcs8 (toDer jwk_parsed) with
      | none => KeyLoad.errReturn
      | some keypair => KeyLoad.provider keypair


/-- Checks whether a `from_keypair_path` outcome produced a usable provider. -/
def KeyLoad.isProvider {K : Type} : KeyLoad K → Bool
  | KeyLoad.provider _ => true
  | _ => false

/-! ### Definitions written from the spec's words, for refinement claims -/

/-- Spec §4.5, blob case: "hash the literal string `"blob" + byte_length`
concatenated (via `digest_concat`, hash-of-hashes) with the blob itself". -/
def specBlobDigest (H : List Nat → List Nat) (blob : List Nat) : List Nat :=
  H (H (blobTag blob.length) ++ H blob)

/-- Spec §4.5, list case: seed with `H ("list" + n)`, then fold over the
elements in order, rehashing the accumulator concatenated with each
element's blob digest. -/
def specDeepHashList (H : List Nat → List Nat) (n : Nat) (data : List (List Nat)) : List Nat :=
  data.foldl (fun acc b => H (acc ++ specBlobDigest H b)) (H (listTag n))

/-- Spec §4.1 `digest_concat`: the digest of the concatenation of the
individual digests of each input (hash-of-hashes). -/
def digest_concat (H : List Nat → List Nat) (msgs : List (List Nat)) : List Nat :=
  H (msgs.foldr (fun m acc => H m ++ acc) [])

/-! ### Concrete instantiations of the external primitives, used by
witnesses and counterexamples -/

/-- A concrete stand-in for a 48-byte-output hash. -/
def H48 : List Nat → List Nat :=
  fun m => List.replicate 48 (m.length % 256)

/-- A concrete stand-in hash that tags its input (injective, so
hash-of-hashes and hash-of-raw-concatenation visibly differ). -/
def consH : List Nat → List Nat :=
  fun l => 99 :: l

/-- Concrete stand-ins for the provider's `deep_hash`, `sign` and
`hash_SHA256`. -/
def dh0 : Transaction → List Nat := fun _ => [1]

def sg0 : List Nat → List Nat := fun m => 2 :: m

def h0 : List Nat → List Nat := fun m => 3 :: m

/-- An already-signed transaction: `signature` (and `id`) are set. -/
def t0 : Transaction :=
  { format := 2, id := [5, 5], last_tx := [], owner := [4], tags := [],
    target := [], quantity := 0, data_root := [], data := [], data_size := 0,
    reward := 0, signature := [7, 7] }

/-! ### Helper lemmas -/

lemma takeExact_self : ∀ xs : List Nat, takeExact xs.length xs = some xs := by
  intro xs
  induction xs with
  | nil => rfl
  | cons x xs ih => simp [takeExact, ih]

lemma concat48_eq {l r : List Nat} (hl : l.length = 48) (hr : r.length = 48) :
    concat_u8_48 l r = some (l ++ r) := by
  have h96 : (l ++ r).length = 96 := by simp [hl, hr]
  unfold concat_u8_48
  rw [← h96, takeExact_self]

lemma hash_all_SHA384_pair (H : List Nat → List Nat) (t b : List Nat) :
    hash_all_SHA384 H [t, b] = H (H t ++ H b) := by
  simp [hash_all_SHA384]

lemma deepHashFold_eq_foldl (H : List Nat → List Nat)
    (h48 : ∀ m, (H m).length = 48) :
    ∀ (data : List (List Nat)) (acc : List Nat), acc.length = 48 →
      deepHashFold H data acc =
        some (data.foldl (fun a b => H (a ++ specBlobDigest H b)) acc) := by
  intro data
  induction data with
  | nil => intro acc _; rfl
  | cons b rest ih =>
    intro acc hacc
    have hlen : (hash_all_SHA384 H [blobTag b.length, b]).length = 48 := h48 _
    simp only [deepHashFold, concat48_eq hacc hlen, Option.some_bind,
      List.foldl_cons]
    rw [ih _ (h48 _), hash_all_SHA384_pair]
    rfl

lemma flatten_map_eq_foldr (H : List Nat → List Nat) (msgs : List (List Nat)) :
    (msgs.map H).flatten = msgs.foldr (fun m acc => H m ++ acc) [] := by
  induction msgs with
  | nil => rfl
  | cons m ms ih => simp [ih]

lemma writeBuf_length (content buf : List Nat) :
    (writeBuf content buf).length = buf.length := by
  simp [writeBuf]
  omega

/-! ### Claims -/

/-- C1: `deep_hash_list` called with `data_len = data.length` and no prior
accumulator seeds the accumulator with `SHA384("list" ++ decimal n)` and
folds `acc ↦ SHA384(acc ++ blobDigest)` over the elements in order, where a
blob's digest is `SHA384(SHA384("blob" ++ len) ++ SHA384(blob))`, returning
the final accumulator.  `H` is the external SHA-384, whose digests are
48 bytes wide. -/
theorem deep_hash_list_matches_spec (H : List Nat → List Nat)
    (h48 : ∀ m, (H m).length = 48) (data : List (List Nat)) :
    deep_hash_list H data.length data none =
      some (specDeepHashList H data.length data) := by
  simp only [deep_hash_list, specDeepHashList]
  exact deepHashFold_eq_foldl H h48 data _ (h48 _)

/-- Witness for C1 at a concrete hash and a concrete two-element list. -/
theorem deep_hash_list_matches_spec_witness :
    deep_hash_list H48 2 [[7], [8, 9]] none =
      some (specDeepHashList H48 2 [[7], [8, 9]]) :=
  deep_hash_list_matches_spec H48 (fun m => by simp [H48]) [[7], [8, 9]]

/-- C2: the transaction returned by `sign_transaction` has
`id = SHA256(signature)` for the signature it just produced (which is the
signature of the deep-hash digest, not the digest itself). -/
theorem sign_transaction_id_is_hash_of_signature
    (deepHash : Transaction → List Nat) (sg H256 : List Nat → List Nat)
    (t : Transaction) :
    (sign_transaction deepHash sg H256 t).id =
        H256 ((sign_transaction deepHash sg H256 t).signature) ∧
      (sign_transaction deepHash sg H256 t).signature = sg (deepHash t) :=
  ⟨rfl, rfl⟩

/-- C3 counterexample: `t0` is already signed (`signature = [7,7] ≠ []`),
yet `sign_transaction` does not fail — it returns a re-signed transaction
with a new signature and identifier. -/
theorem sign_transaction_resigns_counterexample :
    t0.signature ≠ [] ∧
      (sign_transaction dh0 sg0 h0 t0).signature = [2, 1] ∧
      (sign_transaction dh0 sg0 h0 t0).signature ≠ t0.signature ∧
      (sign_transaction dh0 sg0 h0 t0).id = [3, 2, 1] := by
  decide

/-- C3 amended: `sign_transaction` performs no already-signed check; even
when the input's `signature` field is set, it succeeds and overwrites
`signature` and `id` with freshly computed values. -/
theorem sign_transaction_no_already_signed_check
    (deepHash : Transaction → List Nat) (sg H256 : List Nat → List Nat)
    (t : Transaction) (hsig : t.signature ≠ []) :
    (sign_transaction deepHash sg H256 t).signature = sg (deepHash t) ∧
      (sign_transaction deepHash sg H256 t).id = H256 (sg (deepHash t)) :=
  ⟨rfl, rfl⟩

/-- Witness for the amended C3 at the already-signed transaction `t0`. -/
theorem sign_transaction_no_already_signed_check_witness :
    (sign_transaction dh0 sg0 h0 t0).signature = sg0 (dh0 t0) ∧
      (sign_transaction dh0 sg0 h0 t0).id = h0 (sg0 (dh0 t0)) :=
  sign_transaction_no_already_signed_check dh0 sg0 h0 t0 (by decide)

/-- C4: `hash_all_SHA256` / `hash_all_SHA384` compute the spec's
`digest_concat` — the digest of the concatenation of the individual digests
(hash-of-hashes); the last conjunct shows at a concrete (injective) hash
that this differs from hashing the raw concatenation of the messages. -/
theorem hash_all_matches_digest_concat (H256 H384 : List Nat → List Nat)
    (msgs : List (List Nat)) :
    hash_all_SHA256 H256 msgs = digest_concat H256 msgs ∧
      hash_all_SHA384 H384 msgs = digest_concat H384 msgs ∧
      hash_all_SHA256 consH [[0], [1]] ≠
        consH (([[0], [1]] : List (List Nat)).flatten) := by
  refine ⟨?_, ?_, by decide⟩ <;>
    simp [hash_all_SHA256, hash_all_SHA384, digest_concat, flatten_map_eq_foldr]

/-- C5: the empty tag list hashes to `SHA384("list0")`, and so does
`deep_hash_list` with `data_len = 0`, empty data and no prior hash — the
empty list is hashed, not skipped.  The last conjunct pins the ASCII bytes
of `"list0"`. -/
theorem deep_hash_empty_list (H384 : List Nat → List Nat) :
    deep_hash_tags H384 [] = some (H384 (strBytes "list0")) ∧
      deep_hash_list H384 0 [] none = some (H384 (strBytes "list0")) ∧
      strBytes "list0" = [108, 105, 115, 116, 48] := by
  have h : listTag 0 = strBytes "list0" := by decide
  refine ⟨?_, ?_, by decide⟩
  · simp [deep_hash_tags, to_slices, tagsFold, h]
  · simp [deep_hash_list, deepHashFold, h]

/-- C7: `Provider::sign` fills a buffer of `public_modulus_len()` zeros in
place, so the returned signature's length always equals the keypair's
public modulus byte length, whatever bytes the RSA-PSS primitive writes. -/
theorem sign_length_eq_modulus_length (modulusLen : Nat)
    (rsaSig : List Nat → List Nat) (message : List Nat) :
    (sign modulusLen rsaSig message).length = modulusLen := by
  simp [sign, writeBuf_length]

/-- C8 counterexample: on keyfile contents the JWK parser rejects,
`from_keypair_path` hits `jwk_str.parse().unwrap()` and panics — it does
not fail by returning an error. -/
theorem from_keypair_path_panics_counterexample :
    from_keypair_path (some "x") (fun _ : String => (none : Option Unit))
        (fun _ => ([] : List Nat)) (fun _ => (none : Option Unit)) =
      KeyLoad.panicked ∧
      (KeyLoad.panicked : KeyLoad Unit) ≠ KeyLoad.errReturn :=
  ⟨rfl, by decide⟩

/-- C8 amended: malformed key material never yields a usable provider —
contents the JWK parser rejects make construction panic (via `unwrap`),
while a keyfile that parses as a JWK but whose key material the PKCS#8
stage rejects makes construction return an error. -/
theorem from_keypair_path_malformed_fails {J K : Type}
    (jwkParse : String → Option J) (toDer : J → List Nat)
    (fromPkcs8 : List Nat → Option K) (s : String)
    (hbad : jwkParse s = none ∨
      ∃ j, jwkParse s = some j ∧ fromPkcs8 (toDer j) = none) :
    (from_keypair_path (some s) jwkParse toDer fromPkcs8).isProvider = false ∧
      (jwkParse s = none →
        from_keypair_path (some s) jwkParse toDer fromPkcs8 =
          KeyLoad.panicked) ∧
      (jwkParse s ≠ none →
        from_keypair_path (some s) jwkParse toDer fromPkcs8 =
          KeyLoad.errReturn) := by
  rcases hbad with h | ⟨j, hj, hp⟩
  · exact ⟨by simp [from_keypair_path, h, KeyLoad.isProvider],
      fun _ => by simp [from_keypair_path, h],
      fun hne => absurd h hne⟩
  · refine ⟨by simp [from_keypair_path, hj, hp, KeyLoad.isProvider], ?_, ?_⟩
    · intro h
      simp [h] at hj
    · intro _
      simp [from_keypair_path, hj, hp]

/-- Witness for the amended C8 at a keyfile that parses as a JWK but whose
key material the PKCS#8 stage rejects. -/
theorem from_keypair_path_malformed_fails_witness :
    (from_keypair_path (some "x") (fun _ : String => some ())
        (fun _ => ([] : List Nat)) (fun _ => (none : Option Unit))).isProvider
        = false ∧
      ((some () : Option Unit) = none →
        from_keypair_path (some "x") (fun _ : String => some ())
            (fun _ => ([] : List Nat)) (fun _ => (none : Option Unit)) =
          KeyLoad.panicked) ∧
      ((some () : Option Unit) ≠ none →
        from_keypair_path (some "x") (fun _ : String => some ())
            (fun _ => ([] : List Nat)) (fun _ => (none : Option Unit)) =
          KeyLoad.errReturn) :=
  from_keypair_path_malformed_fails _ _ _ "x" (Or.inr ⟨(), rfl, rfl⟩)

/-- C10: on two 48-byte arrays, `concat_u8_48` always returns the 96-byte
concatenation — first 48 bytes `left`, last 48 bytes `right` — and the
iterator `unwrap` (the `none` branch of `takeExact`) is never taken. -/
theorem concat_u8_48_ok (left right : List Nat)
    (hl : left.length = 48) (hr : right.length = 48) :
    concat_u8_48 left right = some (left ++ right) ∧
      (left ++ right).take 48 = left ∧ (left ++ right).drop 48 = right :=
  ⟨concat48_eq hl hr, by rw [← hl, List.take_left], by rw [← hl, List.drop_left]⟩

/-- Witness for C10 at two concrete 48-byte arrays. -/
theorem concat_u8_48_ok_witness :
    concat_u8_48 (List.replicate 48 0) (List.replicate 48 1) =
        some (List.replicate 48 0 ++ List.replicate 48 1) ∧
      (List.replicate 48 0 ++ List.replicate 48 1).take 48 =
        List.replicate 48 0 ∧
      (List.replicate 48 0 ++ List.replicate 48 1).drop 48 =
        List.replicate 48 1 :=
  concat_u8_48_ok _ _ (by simp) (by simp)


/-! ### Base64url (no padding), `transaction.rs` `impl Display for Base64` and
`impl FromStr for Base64`.  The repository delegates to the external `base64`
crate with `URL_SAFE_NO_PAD`; the encoding and decoding below model that
crate's documented algorithm (RFC 4648 §5, no padding, trailing-bit check on
the final partial group). -/

/-- The URL-safe base64 alphabet: `A-Z`, `a-z`, `0-9`, `-` (62), `_` (63). -/
def b64Char (n : Nat) : Char :=
  if n < 26 then Char.ofNat (65 + n)
  else if n < 52 then Char.ofNat (97 + (n - 26))
  else if n < 62 then Char.ofNat (48 + (n - 52))
  else if n = 62 then Char.ofNat 45
  else Char.ofNat 95

/-- Inverse alphabet lookup; `none` on a character outside the alphabet. -/
def b64Index (c : Char) : Option Nat :=
  if 65 ≤ c.toNat ∧ c.toNat ≤ 90 then some (c.toNat - 65)
  else if 97 ≤ c.toNat ∧ c.toNat ≤ 122 then some (26 + (c.toNat - 97))
  else if 48 ≤ c.toNat ∧ c.toNat ≤ 57 then some (52 + (c.toNat - 48))
  else if c.toNat = 45 then some 62
  else if c.toNat = 95 then some 63
  else none

/-- Encode bytes to 6-bit groups: each 3-byte block becomes 4 sextets; a
trailing byte becomes 2 sextets and a trailing pair 3 sextets (no padding). -/
def encodeSextets : List Nat → List Nat
  | [] => []
  | [a] => [a / 4, a % 4 * 16]
  | [a, b] => [a / 4, a % 4 * 16 + b / 16, b % 16 * 4]
  | a :: b :: c :: rest =>
    a / 4 :: (a % 4 * 16 + b / 16) :: (b % 16 * 4 + c / 64) :: c % 64 ::
      encodeSextets rest

/-- Decode 6-bit groups back to bytes: 4 sextets yield 3 bytes; a trailing
group of 2 or 3 sextets yields 1 or 2 bytes provided the unused low bits are
zero; a trailing single sextet (length ≡ 1 mod 4) is invalid. -/
def decodeSextets : List Nat → Option (List Nat)
  | [] => some []
  | [_] => none
  | [s1, s2] => if s2 % 16 = 0 then some [s1 * 4 + s2 / 16] else none
  | [s1, s2, s3] =>
    if s3 % 4 = 0 then some [s1 * 4 + s2 / 16, s2 % 16 * 16 + s3 / 4] else none
  | s1 :: s2 :: s3 :: s4 :: rest =>
    (decodeSextets rest).map
      (fun bs => (s1 * 4 + s2 / 16) :: (s2 % 16 * 16 + s3 / 4) ::
        (s3 % 4 * 64 + s4) :: bs)

/-- `impl Display for Base64`: render the inner bytes as base64url without
padding. -/
def b64Display (v : List Nat) : List Char :=
  (encodeSextets v).map b64Char

/-- `impl FromStr for Base64`: decode a base64url string back to bytes;
`none` models `base64::DecodeError`. -/
def b64FromStr (s : List Char) : Option (List Nat) :=
  (s.mapM b64Index).bind decodeSextets

lemma b64Index_b64Char : ∀ n < 64, b64Index (b64Char n) = some n := by decide

lemma th_mulAddDiv (p q k : Nat) (hq : q < k) (hk : 0 < k) :
    (p * k + q) / k = p := by
  rw [Nat.add_comm, Nat.mul_comm, Nat.add_mul_div_left _ _ hk,
    Nat.div_eq_of_lt hq, Nat.zero_add]

lemma th_mulAddMod (p q k : Nat) (hq : q < k) : (p * k + q) % k = q := by
  rw [Nat.add_comm, Nat.add_mul_mod_self_right, Nat.mod_eq_of_lt hq]

lemma mapM_b64Index_map (l : List Nat) (h : ∀ x ∈ l, x < 64) :
    (l.map b64Char).mapM b64Index = some l := by
  induction l with
  | nil => rfl
  | cons a l ih =>
    simp only [List.map_cons, List.mapM_cons,
      b64Index_b64Char a (h a (by simp)),
      ih (fun x hx => h x (by simp [hx]))]
    rfl

lemma encodeSextets_lt (v : List Nat) (hv : ∀ b ∈ v, b < 256) :
    ∀ s ∈ encodeSextets v, s < 64 := by
  induction v using encodeSextets.induct with
  | case1 => simp [encodeSextets]
  | case2 a =>
    have ha := hv a (by simp)
    simp only [encodeSextets, List.mem_cons, List.not_mem_nil, or_false]
    rintro s (rfl | rfl) <;> omega
  | case3 a b =>
    have ha := hv a (by simp)
    have hb := hv b (by simp)
    simp only [encodeSextets, List.mem_cons, List.not_mem_nil, or_false]
    rintro s (rfl | rfl | rfl) <;> omega
  | case4 a b c rest ih =>
    have ha := hv a (by simp)
    have hb := hv b (by simp)
    have hc := hv c (by simp)
    have hrest : ∀ x ∈ rest, x < 256 := fun x hx => hv x (by simp [hx])
    simp only [encodeSextets, List.mem_cons]
    rintro s (rfl | rfl | rfl | rfl | hs)
    · omega
    · omega
    · omega
    · omega
    · exact ih hrest s hs

lemma decode_encode (v : List Nat) (hv : ∀ b ∈ v, b < 256) :
    decodeSextets (encodeSextets v) = some v := by
  induction v using encodeSextets.induct with
  | case1 => simp [encodeSextets, decodeSextets]
  | case2 a =>
    have ha := hv a (by simp)
    have h1 : a % 4 * 16 % 16 = 0 := Nat.mul_mod_left _ _
    have h2 : a % 4 * 16 / 16 = a % 4 := Nat.mul_div_cancel _ (by norm_num)
    simp only [encodeSextets, decodeSextets, if_pos h1, h2,
      Option.some.injEq, List.cons.injEq, and_true]
    omega
  | case3 a b =>
    have ha := hv a (by simp)
    have hb := hv b (by simp)
    have h0 : b % 16 * 4 % 4 = 0 := Nat.mul_mod_left _ _
    have h2 : (a % 4 * 16 + b / 16) / 16 = a % 4 :=
      th_mulAddDiv _ _ _ (by omega) (by norm_num)
    have h3 : (a % 4 * 16 + b / 16) % 16 = b / 16 :=
      th_mulAddMod _ _ _ (by omega)
    have h4 : b % 16 * 4 / 4 = b % 16 := Nat.mul_div_cancel _ (by norm_num)
    simp only [encodeSextets, decodeSextets, if_pos h0, h2, h3, h4,
      Option.some.injEq, List.cons.injEq, and_true]
    omega
  | case4 a b c rest ih =>
    have ha := hv a (by simp)
    have hb := hv b (by simp)
    have hc := hv c (by simp)
    have hrest : ∀ x ∈ rest, x < 256 := fun x hx => hv x (by simp [hx])
    have h2 : (a % 4 * 16 + b / 16) / 16 = a % 4 :=
      th_mulAddDiv _ _ _ (by omega) (by norm_num)
    have h3 : (a % 4 * 16 + b / 16) % 16 = b / 16 :=
      th_mulAddMod _ _ _ (by omega)
    have h5 : (b % 16 * 4 + c / 64) / 4 = b % 16 :=
      th_mulAddDiv _ _ _ (by omega) (by norm_num)
    have h6 : (b % 16 * 4 + c / 64) % 4 = c / 64 :=
      th_mulAddMod _ _ _ (by omega)
    simp only [encodeSextets, decodeSextets, ih hrest, Option.map_some',
      h2, h3, h5, h6, Option.some.injEq, List.cons.injEq, and_true]
    omega

/-- C9: for every byte vector, rendering it with the `Display`
implementation (base64url without padding) and parsing the result back with
`from_str` succeeds and returns exactly the original bytes. -/
theorem b64_roundtrip (v : List Nat) (hv : ∀ b ∈ v, b < 256) :
    b64FromStr (b64Display v) = some v := by
  unfold b64FromStr b64Display
  rw [mapM_b64Index_map _ (encodeSextets_lt v hv)]
  simpa using decode_encode v hv

/-- Witness for C9 at the repository's own fixture bytes (`[44; 7]`, whose
rendering the tests pin to `"LCwsLCwsLA"`). -/
theorem b64_roundtrip_witness :
    b64FromStr (b64Display [44, 44, 44, 44, 44, 44, 44]) =
      some [44, 44, 44, 44, 44, 44, 44] :=
  b64_roundtrip [44, 44, 44, 44, 44, 44, 44] (by decide)

end ArweaveRs
